import Mathlib

/-!
Verification development for the romba DAT-ingestion core: a shallow
embedding of the clrmamepro text parser, the XML hash normalization,
the depot-root shard accounting, the bloom-filter persistence discipline,
and the refresh pipeline, together with theorems settling the spec claims.

Modelling conventions:
* Go byte slices are `Option (List Nat)` (with byte values as `Nat`):
  `none` is a nil slice, `some l` a non-nil slice (possibly empty).
* Go `error` results are `Option String` (`none` = nil error).
* Go `int`/`int64` are `Int`; two's-complement overflow is outside the
  model (the quantities involved are file sizes and line counts).
* `hex.DecodeString` follows the Go standard library semantics of the
  code's era (returns a nil slice together with the error on malformed
  input).
-/

namespace Romba

/-- `strToBytes s` is the byte sequence of the Go conversion `[]byte(s)`
restricted to the code points of `s` (faithful for ASCII data, which is
all the hex machinery ever inspects). -/
def strToBytes (s : String) : List Nat :=
  s.data.map Char.toNat

/-- Value of a single hex digit byte, as in `encoding/hex.fromHexChar`:
digits, lowercase and uppercase letters; anything else is invalid. -/
def fromHexChar (b : Nat) : Option Nat :=
  if 48 ≤ b ∧ b ≤ 57 then some (b - 48)
  else if 97 ≤ b ∧ b ≤ 102 then some (b - 87)
  else if 65 ≤ b ∧ b ≤ 70 then some (b - 55)
  else none

/-- Core of `encoding/hex.Decode` over a byte sequence: consumes two hex
digit bytes per output byte; fails on odd length or an invalid digit. -/
def hexDecodeCore : List Nat → Option (List Nat)
  | [] => some []
  | [_] => none
  | a :: b :: rest =>
    match fromHexChar a, fromHexChar b, hexDecodeCore rest with
    | some x, some y, some tl => some ((16 * x + y) :: tl)
    | _, _, _ => none

/-- `encoding/hex.DecodeString` as a Go `([]byte, error)` pair: on success
the decoded bytes (non-nil, possibly empty) and a nil error; on malformed
input a nil slice and an error. -/
def hexDecodeString (s : String) : Option (List Nat) × Option String :=
  match hexDecodeCore (strToBytes s) with
  | some bs => (some bs, none)
  | none => (none, some "encoding/hex: invalid byte or length")

/-- ASCII fragment of `unicode.IsSpace`, the character classes
`strings.TrimSpace` strips (the inputs reaching it are ASCII hex text). -/
def goIsSpace (c : Char) : Bool :=
  c = ' ' || c = '\t' || c = '\n' || c = '\r' || c = Char.ofNat 11 || c = Char.ofNat 12

/-- `strings.TrimSpace`: drop leading and trailing whitespace. -/
def trimSpace (s : String) : String :=
  String.mk (((s.data.dropWhile goIsSpace).reverse.dropWhile goIsSpace).reverse)

/-- `strconv.Atoi`: optional sign followed by at least one decimal digit
(the 64-bit range check is outside the model). -/
def goAtoi (s : String) : Except String Int :=
  match s.data with
  | [] => Except.error "invalid syntax"
  | c :: rest =>
    let signed : Bool × List Char :=
      if c = '-' then (true, rest)
      else if c = '+' then (false, rest)
      else (false, c :: rest)
    match signed with
    | (neg, ds) =>
      if ds = [] then Except.error "invalid syntax"
      else if ds.all Char.isDigit then
        let n : Nat := ds.foldl (fun a d => a * 10 + (d.toNat - 48)) 0
        Except.ok (if neg then -(n : Int) else (n : Int))
      else Except.error "invalid syntax"

/-- `stringValue2Int`: the literal `-` means zero, anything else goes
through `strconv.Atoi`. -/
def stringValue2Int (input : String) : Except String Int :=
  if input = "-" then Except.ok 0 else goAtoi input

/-- `stringValue2Bytes`: `-` or the empty string yield a nil slice with
no error; otherwise the input is trimmed, left-zero-padded up to
`expectedLength` hex digits if shorter, and hex-decoded. -/
def stringValue2Bytes (input : String) (expectedLength : Nat) :
    Option (List Nat) × Option String :=
  if input = "-" || input = "" then (none, none)
  else
    let t := trimSpace input
    let padded :=
      if t.length < expectedLength then
        String.mk (List.replicate (expectedLength - t.length) '0') ++ t
      else t
    hexDecodeString padded

/-- `types.Rom` (data model §3; the `types` package is a collaborator of
the parser): name, size, and the three hash fields, each a nillable byte
slice. -/
structure Rom where
  Name : String := ""
  Size : Int := 0
  Crc : Option (List Nat) := none
  Md5 : Option (List Nat) := none
  Sha1 : Option (List Nat) := none
deriving DecidableEq, Repr

/-- `types.Game` (data model §3): name, description and the four nested
rom-shaped collections the XML shape carries. The text grammar only ever
fills `Roms`. -/
structure Game where
  Name : String := ""
  Description : String := ""
  Roms : List Rom := []
  Disks : List Rom := []
  Parts : List Rom := []
  Regions : List Rom := []
deriving DecidableEq, Repr

/-- `types.Dat` (data model §3): header fields plus the game list and the
software list (same nested shape). -/
structure Dat where
  Name : String := ""
  Description : String := ""
  Games : List Game := []
  Software : List Game := []
deriving DecidableEq, Repr

/-- Token kinds of the clrmamepro lexer. The lexer itself is a
collaborator of the parser (tokenizer, spec §2/§4.1); the constructor
order mirrors the parser's use of the enum: keyword kinds come after
`itemValue`, so that a keyword appearing in value position can be taken
as a bare value (`consumeStringValue`). -/
inductive ItemType
  | itemError
  | itemEOF
  | itemOpenBrace
  | itemCloseBrace
  | itemValue
  | itemQuotedString
  | itemClrMamePro
  | itemGame
  | itemRom
  | itemName
  | itemDescription
  | itemSize
  | itemCrc
  | itemMd5
  | itemSha1
deriving DecidableEq, Repr

/-- Numeric rank of a token kind, for the parser's order comparison
`i.typ > itemValue`. -/
def ItemType.rank : ItemType → Nat
  | .itemError => 0
  | .itemEOF => 1
  | .itemOpenBrace => 2
  | .itemCloseBrace => 3
  | .itemValue => 4
  | .itemQuotedString => 5
  | .itemClrMamePro => 6
  | .itemGame => 7
  | .itemRom => 8
  | .itemName => 9
  | .itemDescription => 10
  | .itemSize => 11
  | .itemCrc => 12
  | .itemMd5 => 13
  | .itemSha1 => 14

/-- A lexer item: kind plus raw text (quoted values keep their quotes,
as in the source; the parser strips them). -/
structure Item where
  typ : ItemType
  val : String
deriving DecidableEq, Repr

/-- `i.val[1 : len(i.val)-1]`: strip the delimiting quotes. -/
def stripQuotes (s : String) : String :=
  String.mk ((s.data.drop 1).dropLast)

/-- Body of `consumeStringValue` applied to the single item the call
reads from the stream: a quoted string loses its quotes, a value or any
keyword kind (rank above `itemValue`) is taken verbatim, anything else
is an error. -/
def consumeStringValueItem (i : Item) : Except String String :=
  if i.typ = ItemType.itemQuotedString then Except.ok (stripQuotes i.val)
  else if i.typ = ItemType.itemValue then Except.ok i.val
  else if ItemType.rank ItemType.itemValue < ItemType.rank i.typ then Except.ok i.val
  else Except.error "expected quoted string or value"

/-- Body of `consumeIntegerValue` applied to the single item read. -/
def consumeIntegerValueItem (i : Item) : Except String Int :=
  if i.typ = ItemType.itemValue then stringValue2Int i.val
  else if i.typ = ItemType.itemQuotedString then stringValue2Int (stripQuotes i.val)
  else Except.error "expected value"

/-- Body of `consumeHexBytes` applied to the single item read, as a Go
`([]byte, error)` pair. -/
def consumeHexBytesItem (expectedLength : Nat) (i : Item) :
    Option (List Nat) × Option String :=
  if i.typ = ItemType.itemValue then stringValue2Bytes i.val expectedLength
  else if i.typ = ItemType.itemQuotedString then
    stringValue2Bytes (stripQuotes i.val) expectedLength
  else (none, some "expected value")

/-- The field loop of `romStmt`: consume field/value pairs until a
closing brace. A hash-field coercion failure returns the `(nil, nil)`
pair — no rom and no error — exactly as the source does; a name or size
failure propagates its error; an unrecognized keyword is skipped. The
token list stands for the lexer's item stream, an exhausted list behaving
as end of input. -/
def romStmtLoop (r : Rom) (ts : List Item) : Option Rom × Option String × List Item :=
  match ts with
  | [] => (none, some "unexpected end of input", [])
  | i :: rest =>
    if i.typ = ItemType.itemCloseBrace then (some r, none, rest)
    else if i.typ = ItemType.itemEOF then (none, some "unexpected end of input", rest)
    else if i.typ = ItemType.itemError then (none, some "lexer error", rest)
    else if i.typ = ItemType.itemName then
      match rest with
      | [] => (none, some "expected quoted string or value", [])
      | j :: rest2 =>
        match consumeStringValueItem j with
        | Except.ok v => romStmtLoop { r with Name := v } rest2
        | Except.error e => (none, some e, rest2)
    else if i.typ = ItemType.itemSize then
      match rest with
      | [] => (none, some "expected value", [])
      | j :: rest2 =>
        match consumeIntegerValueItem j with
        | Except.ok v => romStmtLoop { r with Size := v } rest2
        | Except.error e => (none, some e, rest2)
    else if i.typ = ItemType.itemMd5 then
      match rest with
      | [] => (none, none, [])
      | j :: rest2 =>
        match consumeHexBytesItem 32 j with
        | (v, none) => romStmtLoop { r with Md5 := v } rest2
        | (_, some _) => (none, none, rest2)
    else if i.typ = ItemType.itemCrc then
      match rest with
      | [] => (none, none, [])
      | j :: rest2 =>
        match consumeHexBytesItem 8 j with
        | (v, none) => romStmtLoop { r with Crc := v } rest2
        | (_, some _) => (none, none, rest2)
    else if i.typ = ItemType.itemSha1 then
      match rest with
      | [] => (none, none, [])
      | j :: rest2 =>
        match consumeHexBytesItem 40 j with
        | (v, none) => romStmtLoop { r with Sha1 := v } rest2
        | (_, some _) => (none, none, rest2)
    else romStmtLoop r rest

/-- `romStmt`: match an opening brace, then run the field loop on a
zero-value rom. -/
def romStmt (ts : List Item) : Option Rom × Option String × List Item :=
  match ts with
  | [] => (none, some "expected token of type itemOpenBrace", [])
  | i :: rest =>
    if i.typ = ItemType.itemOpenBrace then romStmtLoop {} rest
    else (none, some "expected token of type itemOpenBrace", rest)

/-- The rom-statement field loop only ever consumes tokens: the leftover
stream is no longer than the input (needed to justify termination of the
enclosing game-statement loop). -/
theorem romStmtLoop_rest_length_le (r : Rom) (ts : List Item) :
    ((romStmtLoop r ts).2.2).length ≤ ts.length := by
  induction r, ts using romStmtLoop.induct
  case case2 r j rest2 h => cases rest2 <;> simp_all [romStmtLoop]
  case case3 r j rest2 h1 h2 => cases rest2 <;> simp_all [romStmtLoop]
  case case4 r j rest2 h1 h2 h3 => cases rest2 <;> simp_all [romStmtLoop]
  case case20 r j rest2 h1 h2 h3 h4 h5 h6 h7 h8 ih =>
    cases rest2 <;> simp_all [romStmtLoop] <;> omega
  all_goals simp_all [romStmtLoop] <;> omega

/-- `romStmt` only ever consumes tokens. -/
theorem romStmt_rest_length_le (ts : List Item) :
    ((romStmt ts).2.2).length ≤ ts.length := by
  match ts with
  | [] => simp [romStmt]
  | i :: rest =>
    by_cases h : i.typ = ItemType.itemOpenBrace <;> simp [romStmt, h]
    exact le_trans (romStmtLoop_rest_length_le {} rest) (Nat.le_succ _)

/-- The field loop of `gameStmt`: name and description fields update the
game, a `rom` keyword runs `romStmt` and appends the resulting rom only
when it is non-nil (the `(nil, nil)` outcome of a dropped rom statement
leaves the game untouched and parsing continues), a rom-statement error
aborts the game statement. -/
def gameStmtLoop (g : Game) (ts : List Item) : Option Game × Option String × List Item :=
  match ts with
  | [] => (none, some "unexpected end of input", [])
  | i :: rest =>
    if i.typ = ItemType.itemCloseBrace then (some g, none, rest)
    else if i.typ = ItemType.itemEOF then (none, some "unexpected end of input", rest)
    else if i.typ = ItemType.itemError then (none, some "lexer error", rest)
    else if i.typ = ItemType.itemName then
      match rest with
      | [] => (none, some "expected quoted string or value", [])
      | j :: rest2 =>
        match consumeStringValueItem j with
        | Except.ok v => gameStmtLoop { g with Name := v } rest2
        | Except.error e => (none, some e, rest2)
    else if i.typ = ItemType.itemDescription then
      match rest with
      | [] => (none, some "expected quoted string or value", [])
      | j :: rest2 =>
        match consumeStringValueItem j with
        | Except.ok v => gameStmtLoop { g with Description := v } rest2
        | Except.error e => (none, some e, rest2)
    else if i.typ = ItemType.itemRom then
      match h : romStmt rest with
      | (_, some e, rest2) => (none, some e, rest2)
      | (some r, none, rest2) =>
        gameStmtLoop { g with Roms := g.Roms ++ [r] } rest2
      | (none, none, rest2) => gameStmtLoop g rest2
    else gameStmtLoop g rest
termination_by ts.length
decreasing_by
  · simp; omega
  · simp; omega
  · rename_i rst n1 n2 n3 n4 n5 n6
    have hle := romStmt_rest_length_le rst
    rw [h] at hle
    simp at hle
    simp
    omega
  · rename_i rst n1 n2 n3 n4 n5 n6
    have hle := romStmt_rest_length_le rst
    rw [h] at hle
    simp at hle
    simp
    omega
  · simp

/-- `gameStmt`: match an opening brace, then run the field loop on a
zero-value game. -/
def gameStmt (ts : List Item) : Option Game × Option String × List Item :=
  match ts with
  | [] => (none, some "expected token of type itemOpenBrace", [])
  | i :: rest =>
    if i.typ = ItemType.itemOpenBrace then gameStmtLoop {} rest
    else (none, some "expected token of type itemOpenBrace", rest)

/-- One hash field of `fixHashes`: a nil field is left alone; a present
field is re-read as hex text and decoded. The source's error branch sets
the field to nil and the unconditional `rom.X = v` that follows
overwrites it with the decode result, which on failure is itself the nil
slice (`hex.DecodeString` semantics above), so the net effect is exactly
the decode result. -/
def fixHashField (f : Option (List Nat)) : Option (List Nat) :=
  match f with
  | none => none
  | some bs => hexDecodeCore bs

/-- `fixHashes`: post-decode normalization of the three hash fields of a
rom parsed from XML; the other fields are untouched. -/
def fixHashes (rom : Rom) : Rom :=
  { rom with
    Crc := fixHashField rom.Crc
    Md5 := fixHashField rom.Md5
    Sha1 := fixHashField rom.Sha1 }

/-- `depotRoot`: the per-shard mutable state (`path`, bloom readiness,
bloom filter, dirty flag, size, capacity). The bloom filter itself is the
external `willf/bloom` collaborator; it is modelled by the list of keys
added to it, which is what the frame claims inspect. The per-shard mutex
is the concurrency guard and has no sequential content. -/
structure DepotRoot where
  path : String := ""
  bloomReady : Bool := false
  bf : List String := []
  touched : Bool := false
  size : Int := 0
  maxSize : Int := 0
deriving DecidableEq, Repr

/-- Body of `adjustSize` on the selected shard: add the delta, clamp the
size at zero, record the content id in the bloom filter when the id is
non-empty and the filter is ready, and mark the shard dirty. -/
def adjustRoot (dr : DepotRoot) (delta : Int) (sha1Hex : String) : DepotRoot :=
  let size1 := dr.size + delta
  let size2 := if size1 < 0 then 0 else size1
  let bf2 := if sha1Hex ≠ "" && dr.bloomReady then dr.bf ++ [sha1Hex] else dr.bf
  { dr with size := size2, bf := bf2, touched := true }

/-- `Depot.adjustSize`: apply `adjustRoot` to the shard at `index` of the
root list (indexing a Go slice; claims always supply an in-range index). -/
def adjustSize (roots : List DepotRoot) (index : Nat) (delta : Int) (sha1Hex : String) :
    List DepotRoot :=
  match roots.get? index with
  | none => roots
  | some dr => roots.set index (adjustRoot dr delta sha1Hex)

/-- A depot file path, as produced by `filepath.Join(root, name)`:
the root directory paired with the file name. -/
abbrev FPath := String × String

/-- The file system as an association list from paths to byte contents. -/
abbrev FS := List (FPath × List Nat)

/-- Contents of a path, if the file exists. -/
def fsLookup : FS → FPath → Option (List Nat)
  | [], _ => none
  | (q, c) :: rest, p => if q = p then some c else fsLookup rest p

/-- Create or replace a file with the given contents. -/
def fsSet : FS → FPath → List Nat → FS
  | [], p, c => [(p, c)]
  | (q, d) :: rest, p, c =>
    if q = p then (p, c) :: rest else (q, d) :: fsSet rest p c

/-- Remove a file. -/
def fsRemove : FS → FPath → FS
  | [], _ => []
  | (q, d) :: rest, p => if q = p then rest else (q, d) :: fsRemove rest p

/-- `PathExists`. -/
def pathExists (fs : FS) (p : FPath) : Bool :=
  (fsLookup fs p).isSome

/-- `os.Rename`: move the file at `src` to `dst`, replacing `dst`;
an error if `src` does not exist. -/
def fsRename (fs : FS) (src dst : FPath) : FS × Option String :=
  match fsLookup fs src with
  | none => (fs, some "rename: no such file or directory")
  | some c => (fsRemove (fsSet fs dst c) src, none)

/-- `os.Create`: create the file, truncating it if it exists. -/
def fsCreate (fs : FS) (p : FPath) : FS :=
  fsSet fs p []

/-- `WriteTo` through the created file handle: the file now holds the
serialized filter bytes. -/
def fsWrite (fs : FS) (p : FPath) (c : List Nat) : FS :=
  fsSet fs p c

/-- Modelled from the spec: the constants `bloomFilterFilename` and
`backupBloomFilterFilename` are defined elsewhere in the repository
(outside the given sources). Only their distinctness matters: the backup
file is a sibling of the primary filter file. -/
def bloomFilterFilename : String := "bloomfilter"

/-- Modelled from the spec: the backup name next to the primary filter
file. -/
def backupBloomFilterFilename : String := "bloomfilter-backup"

/-- The successive file-system states of `writeBloomFilterWithBackup`
when the primary filter file exists: initial, after the rename of the
primary file to the backup name, after `os.Create` of the new primary
(truncated, its transient empty state), and after the filter bytes are
written. When the primary does not exist there is no rename step. A
crash at any point leaves one of these states on disk. -/
def writeBloomFilterWithBackupStates (fs0 : FS) (root : String) (bf : List Nat) :
    List FS :=
  let bfFilePath : FPath := (root, bloomFilterFilename)
  if pathExists fs0 bfFilePath then
    let backupBfFilePath : FPath := (root, backupBloomFilterFilename)
    let fs1 := (fsRename fs0 bfFilePath backupBfFilePath).1
    let fs2 := fsCreate fs1 bfFilePath
    let fs3 := fsWrite fs2 bfFilePath bf
    [fs0, fs1, fs2, fs3]
  else
    let fs2 := fsCreate fs0 bfFilePath
    let fs3 := fsWrite fs2 bfFilePath bf
    [fs0, fs2, fs3]

/-- `writeBloomFilterWithBackup` run to completion: the last state (the
rename cannot fail in the model because it is only attempted when the
primary exists). -/
def writeBloomFilterWithBackup (fs0 : FS) (root : String) (bf : List Nat) :
    FS × Option String :=
  ((writeBloomFilterWithBackupStates fs0 root bf).getLast!, none)

/-- `MaxBatchSize`, the fixed batch high-water mark. -/
def MaxBatchSize : Int := 10485760

/-- Modelled from the spec: the `RomBatch` implementation lives behind
the `RomDB` collaborator (outside the given sources). Tracked state: the
accumulated byte size the batch reports and whether it has been closed.
`Flush` commits pending writes and resets the reported size without
closing; `IndexDat` grows the reported size; `Close` closes. -/
structure ModelBatch where
  size : Int := 0
  closed : Bool := false
deriving DecidableEq, Repr

/-- Modelled from the spec: `RomBatch.Flush`. -/
def batchFlush (b : ModelBatch) : ModelBatch :=
  { b with size := 0 }

/-- Modelled from the spec: `RomBatch.IndexDat` grows the reported batch
size by the indexed catalog's footprint. -/
def batchIndexDat (b : ModelBatch) (datSize : Int) : ModelBatch :=
  { b with size := b.size + datSize }

/-- Modelled from the spec: `RomBatch.Close`. -/
def batchClose (b : ModelBatch) : ModelBatch :=
  { b with closed := true }

/-- One DAT file of the walked tree, as the refresh pipeline sees it:
its path, whether `parser.Parse` succeeds on it (the parser outcome is a
parameter of the walk model), and the batch-size footprint its indexing
adds. -/
structure DatFile where
  path : String := ""
  parseOk : Bool := true
  datSize : Int := 0
deriving DecidableEq, Repr

/-- Observable events of a refresh run. -/
inductive REvent
  | orphanDats
  | walkStart
  | flushBatch
  | parseFile (path : String)
  | indexDat (path : String)
  | dbFlush
deriving DecidableEq, Repr

/-- `filepath.Ext`: the suffix of the final path element starting at its
last dot, empty when the final element has no dot. -/
def pathExt (path : String) : String :=
  let elemRev := path.data.reverse.takeWhile (fun c => c ≠ '/')
  let preRev := elemRev.takeWhile (fun c => c ≠ '.')
  if preRev.length < elemRev.length then String.mk (List.cons '.' preRev.reverse)
  else ""

/-- `refreshMaster.Accept`: only `.dat` and `.xml` paths are admitted. -/
def refreshAccept (path : String) : Bool :=
  pathExt path = ".dat" || pathExt path = ".xml"

/-- `refreshWorker.Process`: if the batch's reported size has reached
`MaxBatchSize`, flush it first (the flush neither closes the batch nor
touches the file); then parse the file; a parse failure is returned
without indexing; otherwise the parsed catalog is handed to
`IndexDat`. Returns the batch afterwards, the error, and the emitted
events in order. -/
def refreshProcess (b : ModelBatch) (f : DatFile) :
    ModelBatch × Option String × List REvent :=
  let flushed :=
    if MaxBatchSize ≤ b.size then (batchFlush b, [REvent.flushBatch])
    else (b, ([] : List REvent))
  match flushed with
  | (b1, evs1) =>
    if f.parseOk then
      (batchIndexDat b1 f.datSize, none, evs1 ++ [REvent.parseFile f.path, REvent.indexDat f.path])
    else
      (b1, some "parse error", evs1 ++ [REvent.parseFile f.path])

/-- Modelled from the spec: `worker.Work`, the worker-pool collaborator
(outside the given sources), collapsed to a sequential walk: each path is
admitted through the master's accept predicate; every accepted file is
processed by the worker; the first error stops the walk. -/
def runWalk (b : ModelBatch) (files : List DatFile) :
    ModelBatch × Option String × List REvent :=
  match files with
  | [] => (b, none, [])
  | f :: rest =>
    if refreshAccept f.path then
      match refreshProcess b f with
      | (b1, none, evs) =>
        match runWalk b1 rest with
        | (b2, e2, evs2) => (b2, e2, evs ++ evs2)
      | (b1, some e, evs) => (b1, some e, evs)
    else runWalk b rest

/-- `Refresh`: first `OrphanDats`; on error return it immediately (no
master is built, the walk never starts); otherwise run the walk and the
final `FinishUp` flush of the index. Result: the terminal error, paired
with the emitted event trace. -/
def RefreshModel (orphanErr : Option String) (files : List DatFile) :
    Option String × List REvent :=
  match orphanErr with
  | some e => (some e, [REvent.orphanDats])
  | none =>
    match runWalk {} files with
    | (_, e, evs) =>
      (e, REvent.orphanDats :: REvent.walkStart :: (evs ++ [REvent.dbFlush]))

/-- Newlines in a chunk of bytes, as counted by the loop in
`lineCountingReader.Read`. -/
def countNewlines (chunk : List Nat) : Int :=
  ((chunk.filter (fun b => b = 10)).length : Int)

/-- The line-counting reader: its only state is the newline count. -/
structure LineCountingReader where
  line : Int := 0
deriving DecidableEq, Repr

/-- The body of `lineCountingReader.Read` acting on the receiver it was
handed: forward the inner read, and when the inner read returned no
error, add the newlines of the delivered chunk to `line`. Returns `(n,
err)` together with the state of that receiver after the body ran. -/
def lineCountingReadBody (r : LineCountingReader) (chunk : List Nat)
    (e : Option String) : (Nat × Option String) × LineCountingReader :=
  if e = none then
    ((chunk.length, e), { r with line := r.line + countNewlines chunk })
  else ((chunk.length, e), r)

/-- A call to `lineCountingReader.Read` as Go executes it: the method has
a value receiver, so the body runs on a copy of the caller's struct and
the caller's struct is returned unchanged. -/
def lineCountingReadCall (r : LineCountingReader) (chunk : List Nat)
    (e : Option String) : (Nat × Option String) × LineCountingReader :=
  ((lineCountingReadBody r chunk e).1, r)

/-- The line number `ParseXml` reports on a decode failure: `lr` starts
at zero, the XML decoder performs the given sequence of reads through it
(each read delivering a chunk and an error), and the error message
formats `lr.line` as it stands after those calls. -/
def parseXmlReportedLine (reads : List (List Nat × Option String)) : Int :=
  (reads.foldl (fun lr rd => (lineCountingReadCall lr rd.1 rd.2).2)
    ({} : LineCountingReader)).line

/-- The newline count the reader's body accumulates across the same
reads — what a pointer receiver would have left in `lr.line`. -/
def newlinesDelivered (reads : List (List Nat × Option String)) : Int :=
  (reads.foldl (fun lr rd => (lineCountingReadBody lr rd.1 rd.2).2)
    ({} : LineCountingReader)).line

/-- The bytes fed into the digest by `hashingReader.Read` across a
sequence of reads: the chunks of exactly those reads that returned a nil
error (the body writes to the hash only under `err == nil`). The digest
`ParseDat` returns is the SHA-1 of this byte sequence; the hash function
itself is the external crypto collaborator, so digests are compared as
the byte sequences fed into them. -/
def hashedBytes : List (List Nat × Option String) → List Nat
  | [] => []
  | rd :: rest => (if rd.2 = none then rd.1 else []) ++ hashedBytes rest

/-- All bytes the consumer received across a sequence of reads,
regardless of the accompanying error. -/
def consumedBytes : List (List Nat × Option String) → List Nat
  | [] => []
  | rd :: rest => rd.1 ++ consumedBytes rest

/-! Helper lemmas about the file-system model. -/

theorem fsLookup_fsSet_self (fs : FS) (p : FPath) (c : List Nat) :
    fsLookup (fsSet fs p c) p = some c := by
  induction fs with
  | nil => simp [fsSet, fsLookup]
  | cons hd tl ih =>
    obtain ⟨q, d⟩ := hd
    by_cases h : q = p <;> simp [fsSet, fsLookup, h, ih]

theorem fsLookup_fsSet_ne (fs : FS) (p q : FPath) (c : List Nat) (h : q ≠ p) :
    fsLookup (fsSet fs p c) q = fsLookup fs q := by
  induction fs with
  | nil => simp [fsSet, fsLookup, h, Ne.symm h]
  | cons hd tl ih =>
    obtain ⟨x, d⟩ := hd
    by_cases hx : x = p <;> simp [fsSet, fsLookup, hx, ih]
    · subst hx
      simp [Ne.symm h]

theorem fsLookup_fsRemove_ne (fs : FS) (p q : FPath) (h : q ≠ p) :
    fsLookup (fsRemove fs p) q = fsLookup fs q := by
  induction fs with
  | nil => simp [fsRemove, fsLookup]
  | cons hd tl ih =>
    obtain ⟨x, d⟩ := hd
    by_cases hx : x = p <;> simp [fsRemove, fsLookup, hx, ih]
    · subst hx
      simp [Ne.symm h]

/-! The claims. -/

/-- C1: a text-grammar rom statement containing a crc, md5 or sha1 field
whose value fails hex coercion yields `(nil, nil)` — no rom and no error
— from any parser state, so the rom is entirely absent from its game's
rom list; the XML path instead keeps the rom, clears the failing hash
field to nil, and leaves every other field unchanged. -/
theorem badHex_text_drops_rom_xml_clears_field
    (r : Rom) (tok : ItemType) (len : Nat) (bad nm : String) (sz : Int)
    (rest : List Item)
    (htok : (tok = ItemType.itemCrc ∧ len = 8) ∨ (tok = ItemType.itemMd5 ∧ len = 32) ∨
      (tok = ItemType.itemSha1 ∧ len = 40))
    (hfail : (stringValue2Bytes bad len).2 ≠ none)
    (hxfail : hexDecodeCore (strToBytes bad) = none) :
    romStmtLoop r (Item.mk tok "" :: Item.mk ItemType.itemValue bad :: rest) =
      (none, none, rest)
    ∧ gameStmt [Item.mk ItemType.itemOpenBrace "", Item.mk ItemType.itemName "",
        Item.mk ItemType.itemValue nm, Item.mk ItemType.itemRom "",
        Item.mk ItemType.itemOpenBrace "", Item.mk tok "", Item.mk ItemType.itemValue bad,
        Item.mk ItemType.itemCloseBrace "", Item.mk ItemType.itemCloseBrace ""] =
      (some { Name := nm }, none, [Item.mk ItemType.itemCloseBrace ""])
    ∧ fixHashes
        { Name := nm, Size := sz,
          Crc := if tok = ItemType.itemCrc then some (strToBytes bad) else none,
          Md5 := if tok = ItemType.itemMd5 then some (strToBytes bad) else none,
          Sha1 := if tok = ItemType.itemSha1 then some (strToBytes bad) else none } =
      { Name := nm, Size := sz, Crc := none, Md5 := none, Sha1 := none } := by
  rcases hsv : stringValue2Bytes bad len with ⟨v, err⟩
  rcases htok with ⟨ht, hl⟩ | ⟨ht, hl⟩ | ⟨ht, hl⟩ <;> subst ht <;> subst hl <;>
    cases err <;> simp_all [romStmtLoop, gameStmt, gameStmtLoop, romStmt,
      consumeHexBytesItem, consumeStringValueItem, fixHashes, fixHashField] <;>
    (rw [hsv]; simp [gameStmtLoop])

/-- C1 witness: the malformed value `xyz` in a sha1 field. -/
theorem badHex_text_drops_rom_xml_clears_field_witness :
    romStmtLoop {} [Item.mk ItemType.itemSha1 "", Item.mk ItemType.itemValue "xyz"] =
      (none, none, [])
    ∧ fixHashes
        { Name := "g", Size := 7, Crc := none, Md5 := none,
          Sha1 := some (strToBytes "xyz") } =
      { Name := "g", Size := 7, Crc := none, Md5 := none, Sha1 := none } := by
  have h := badHex_text_drops_rom_xml_clears_field {} ItemType.itemSha1 40 "xyz" "g" 7 []
    (Or.inr (Or.inr ⟨rfl, rfl⟩)) (by decide) (by decide)
  exact ⟨h.1, by simpa using h.2.2⟩

/-- C2: for every shard index in range, every delta and every content
id, `adjustSize` leaves the shard's size at `max 0 (oldSize + delta)` —
never negative — and sets its dirty flag. -/
theorem adjustSize_clamps_at_zero_and_dirties
    (roots : List DepotRoot) (index : Nat) (delta : Int) (sha1Hex : String)
    (dr : DepotRoot) (h : roots.get? index = some dr) :
    ∃ dr2, (adjustSize roots index delta sha1Hex).get? index = some dr2 ∧
      dr2.size = max 0 (dr.size + delta) ∧ dr2.touched = true := by
  refine ⟨adjustRoot dr delta sha1Hex, ?_, ?_, rfl⟩
  · have hlt : index < roots.length := (List.get?_eq_some.mp h).1
    simp only [adjustSize, h]
    exact List.get?_set_eq_of_lt _ hlt
  · simp only [adjustRoot]
    split <;> omega

/-- C2 witness: size 3, delta -5 clamps to 0 on a dirty-flagged shard. -/
theorem adjustSize_clamps_at_zero_and_dirties_witness :
    ∃ dr2, (adjustSize [{ size := 3, bloomReady := true }] 0 (-5) "aa").get? 0 = some dr2 ∧
      dr2.size = max 0 ((3 : Int) + -5) ∧ dr2.touched = true :=
  adjustSize_clamps_at_zero_and_dirties [{ size := 3, bloomReady := true }] 0 (-5) "aa"
    { size := 3, bloomReady := true } rfl

/-- C10: `adjustSize` with an empty content id never touches the shard's
bloom filter, even when the filter is ready, while the size clamp and the
dirty flag behave exactly as for a non-empty id. -/
theorem adjustSize_empty_id_skips_bloom
    (roots : List DepotRoot) (index : Nat) (delta : Int)
    (dr : DepotRoot) (h : roots.get? index = some dr) :
    ∃ dr2, (adjustSize roots index delta "").get? index = some dr2 ∧
      dr2.bf = dr.bf ∧ dr2.bloomReady = dr.bloomReady ∧
      dr2.size = max 0 (dr.size + delta) ∧ dr2.touched = true := by
  refine ⟨adjustRoot dr delta "", ?_, ?_, rfl, ?_, rfl⟩
  · have hlt : index < roots.length := (List.get?_eq_some.mp h).1
    simp only [adjustSize, h]
    exact List.get?_set_eq_of_lt _ hlt
  · simp [adjustRoot]
  · simp only [adjustRoot]
    split <;> omega

/-- C10 witness: a ready bloom filter with one key is left untouched by
an empty content id. -/
theorem adjustSize_empty_id_skips_bloom_witness :
    ∃ dr2,
      (adjustSize [{ size := 3, bloomReady := true, bf := ["x"] }] 0 (-5) "").get? 0 =
        some dr2 ∧
      dr2.bf = ["x"] ∧ dr2.bloomReady = true ∧
      dr2.size = max 0 ((3 : Int) + -5) ∧ dr2.touched = true :=
  adjustSize_empty_id_skips_bloom [{ size := 3, bloomReady := true, bf := ["x"] }] 0 (-5)
    { size := 3, bloomReady := true, bf := ["x"] } rfl

/-- C3: in every refresh run the orphan-marking step is the very first
event of the trace, so it completes before any indexing write; and if
`OrphanDats` fails, `Refresh` returns that error with a trace containing
no walk start and no indexing write at all. -/
theorem Refresh_orphans_first
    (oe : Option String) (files : List DatFile) :
    (∃ rest, (RefreshModel oe files).2 = REvent.orphanDats :: rest) ∧
    (∀ e, oe = some e → RefreshModel oe files = (some e, [REvent.orphanDats])) := by
  constructor
  · cases oe with
    | some e => exact ⟨[], by simp [RefreshModel]⟩
    | none =>
      rcases hrw : runWalk {} files with ⟨b2, e2, evs⟩
      exact ⟨REvent.walkStart :: (evs ++ [REvent.dbFlush]), by simp [RefreshModel, hrw]⟩
  · intro e he
    subst he
    simp [RefreshModel]

/-- C3 witness: a failing `OrphanDats` short-circuits the refresh. -/
theorem Refresh_orphans_first_witness :
    RefreshModel (some "boom") [{ path := "a.dat" }] =
      (some "boom", [REvent.orphanDats]) :=
  (Refresh_orphans_first (some "boom") [{ path := "a.dat" }]).2 "boom" rfl

/-- C4: when the primary bloom-filter file exists, the states
`writeBloomFilterWithBackup` moves the file system through are: initial,
after the rename (primary moved to the backup name), after the truncating
create of the new primary, and after the write of the new filter bytes;
from the rename on, the backup file holds exactly the pre-existing filter
bytes, and on completion the primary holds the new bytes. -/
theorem writeBloomFilterWithBackup_backup_intact
    (fs0 : FS) (root : String) (bf old : List Nat)
    (h : fsLookup fs0 (root, bloomFilterFilename) = some old) :
    (writeBloomFilterWithBackupStates fs0 root bf).length = 4 ∧
    (writeBloomFilterWithBackupStates fs0 root bf).head? = some fs0 ∧
    (∀ s ∈ (writeBloomFilterWithBackupStates fs0 root bf).drop 1,
      fsLookup s (root, backupBloomFilterFilename) = some old) ∧
    fsLookup (writeBloomFilterWithBackup fs0 root bf).1 (root, bloomFilterFilename) =
      some bf ∧
    (writeBloomFilterWithBackup fs0 root bf).2 = none := by
  have hne : ((root, backupBloomFilterFilename) : FPath) ≠ (root, bloomFilterFilename) := by
    simp [bloomFilterFilename, backupBloomFilterFilename]
  have hex : pathExists fs0 (root, bloomFilterFilename) = true := by
    simp [pathExists, h]
  have hstates : writeBloomFilterWithBackupStates fs0 root bf =
      [fs0,
       fsRemove (fsSet fs0 (root, backupBloomFilterFilename) old) (root, bloomFilterFilename),
       fsSet (fsRemove (fsSet fs0 (root, backupBloomFilterFilename) old)
         (root, bloomFilterFilename)) (root, bloomFilterFilename) [],
       fsSet (fsSet (fsRemove (fsSet fs0 (root, backupBloomFilterFilename) old)
         (root, bloomFilterFilename)) (root, bloomFilterFilename) [])
         (root, bloomFilterFilename) bf] := by
    simp [writeBloomFilterWithBackupStates, hex, fsRename, h, fsCreate, fsWrite]
  have hbak1 : fsLookup (fsRemove (fsSet fs0 (root, backupBloomFilterFilename) old)
      (root, bloomFilterFilename)) (root, backupBloomFilterFilename) = some old := by
    rw [fsLookup_fsRemove_ne _ _ _ hne, fsLookup_fsSet_self]
  refine ⟨by rw [hstates]; rfl, by rw [hstates]; rfl, ?_, ?_, ?_⟩
  · rw [hstates]
    intro s hs
    simp only [List.drop, List.mem_cons, List.mem_singleton, List.not_mem_nil, or_false] at hs
    rcases hs with hs | hs | hs <;> subst hs
    · exact hbak1
    · rw [fsLookup_fsSet_ne _ _ _ _ hne]
      exact hbak1
    · rw [fsLookup_fsSet_ne _ _ _ _ hne, fsLookup_fsSet_ne _ _ _ _ hne]
      exact hbak1
  · rw [writeBloomFilterWithBackup, hstates]
    simp only [List.getLast!]
    simp [fsLookup_fsSet_self]
  · rw [writeBloomFilterWithBackup]


/-- C4 witness: a one-file depot root whose filter bytes survive in the
backup at every post-rename state. -/
theorem writeBloomFilterWithBackup_backup_intact_witness :
    (∀ s ∈ (writeBloomFilterWithBackupStates
        [(("r", bloomFilterFilename), [1, 2, 3])] "r" [9, 9]).drop 1,
      fsLookup s ("r", backupBloomFilterFilename) = some [1, 2, 3]) ∧
    fsLookup (writeBloomFilterWithBackup
        [(("r", bloomFilterFilename), [1, 2, 3])] "r" [9, 9]).1
      ("r", bloomFilterFilename) = some [9, 9] :=
  let h := writeBloomFilterWithBackup_backup_intact
    [(("r", bloomFilterFilename), [1, 2, 3])] "r" [9, 9] [1, 2, 3] (by simp [fsLookup])
  ⟨h.2.2.1, h.2.2.2.1⟩

/-- C5: when `Process` is entered with a batch whose reported size has
reached `MaxBatchSize` (= 10485760), the batch is flushed before the file
is parsed or indexed and the flush does not close the batch; below the
threshold no flush event is emitted. -/
theorem Process_flushes_before_parse_at_threshold
    (b : ModelBatch) (f : DatFile) :
    (MaxBatchSize ≤ b.size →
      (∃ tail, (refreshProcess b f).2.2 =
        REvent.flushBatch :: REvent.parseFile f.path :: tail) ∧
      ((refreshProcess b f).1).closed = b.closed) ∧
    (b.size < MaxBatchSize → REvent.flushBatch ∉ (refreshProcess b f).2.2) ∧
    MaxBatchSize = 10485760 := by
  refine ⟨fun hge => ?_, fun hlt => ?_, rfl⟩
  · by_cases hp : f.parseOk <;>
      simp [refreshProcess, hp, if_pos hge, batchFlush, batchIndexDat]
  · have : ¬ MaxBatchSize ≤ b.size := not_le.mpr hlt
    by_cases hp : f.parseOk <;>
      simp [refreshProcess, hp, if_neg this, batchIndexDat]

/-- C5 witness: a batch exactly at the threshold flushes first and stays
open; a small batch does not flush. -/
theorem Process_flushes_before_parse_at_threshold_witness :
    ((MaxBatchSize ≤ ({ size := 10485760 } : ModelBatch).size →
      (∃ tail, (refreshProcess { size := 10485760 } { path := "a.dat" }).2.2 =
        REvent.flushBatch :: REvent.parseFile "a.dat" :: tail) ∧
      ((refreshProcess { size := 10485760 } { path := "a.dat" }).1).closed = false) ∧
     (REvent.flushBatch ∉ (refreshProcess { size := 5 } { path := "a.dat" }).2.2)) := by
  constructor
  · exact (Process_flushes_before_parse_at_threshold { size := 10485760 } { path := "a.dat" }).1
  · exact (Process_flushes_before_parse_at_threshold { size := 5 } { path := "a.dat" }).2.1
      (by decide)

/-- C6: `stringValue2Bytes` maps `-` and the empty string to a nil slice
with no error; any other whitespace-free input no longer than the
canonical length is left-zero-padded to that length and hex-decoded (an
input of exactly canonical length is decoded as is); concretely, CRC
input `1a2b` against expected length 8 decodes to bytes 00 00 1a 2b. -/
theorem stringValue2Bytes_pads_and_nils :
    (∀ n, stringValue2Bytes "-" n = (none, none) ∧ stringValue2Bytes "" n = (none, none)) ∧
    (∀ (s : String) (n : Nat), s ≠ "-" → s ≠ "" → trimSpace s = s → s.length ≤ n →
      stringValue2Bytes s n =
        hexDecodeString (String.mk (List.replicate (n - s.length) '0') ++ s)) ∧
    stringValue2Bytes "1a2b" 8 = (some [0, 0, 26, 43], none) := by
  refine ⟨fun n => ⟨by simp [stringValue2Bytes], by simp [stringValue2Bytes]⟩, ?_, by rfl⟩
  intro s n hs1 hs2 htrim hle
  have hcond : (s = "-" || s = "") = false := by simp [hs1, hs2]
  rw [stringValue2Bytes]
  simp only [hcond, Bool.false_eq_true, if_false, htrim]
  by_cases hlt : s.length < n
  · simp [hlt]
  · have heq : s.length = n := le_antisymm hle (not_lt.mp hlt)
    have hnil : String.mk (List.replicate (n - s.length) '0') ++ s = s := by
      rw [heq, Nat.sub_self]
      cases s
      rfl
    simp [hlt, hnil]

/-- C6 witness: `ff` against expected length 8 goes through the padding
equation. -/
theorem stringValue2Bytes_pads_and_nils_witness :
    stringValue2Bytes "ff" 8 =
      hexDecodeString (String.mk (List.replicate (8 - "ff".length) '0') ++ "ff") :=
  stringValue2Bytes_pads_and_nils.2.1 "ff" 8 (by decide) (by decide) (by decide) (by decide)

/-- C7 counterexample: `fixHashes` is not idempotent. A crc parsed from
the hex text `1234` is normalized to the raw bytes 12 34; a second
application re-reads those raw bytes as hex text, fails to decode them,
and clears the field to nil. -/
theorem fixHashes_double_corrupts :
    fixHashes (fixHashes { Crc := some (strToBytes "1234") }) ≠
      fixHashes { Crc := some (strToBytes "1234") } := by decide

/-- C7 amended: `fixHashes` is idempotent only on roms whose hash fields
are nil or fail hex decoding (both applications clear such fields to
nil); on a successfully decoded raw-byte field a second application
corrupts it, as the counterexample shows. -/
theorem fixHashes_idempotent_on_nonhex
    (r : Rom)
    (hc : r.Crc = none ∨ ∃ bs, r.Crc = some bs ∧ hexDecodeCore bs = none)
    (hm : r.Md5 = none ∨ ∃ bs, r.Md5 = some bs ∧ hexDecodeCore bs = none)
    (hs : r.Sha1 = none ∨ ∃ bs, r.Sha1 = some bs ∧ hexDecodeCore bs = none) :
    fixHashes (fixHashes r) = fixHashes r := by
  have hf : ∀ f, (f = none ∨ ∃ bs, f = some bs ∧ hexDecodeCore bs = none) →
      fixHashField f = none := by
    rintro f (rfl | ⟨bs, rfl, hbs⟩) <;> simp [fixHashField, *]
  have h0 : fixHashField (none : Option (List Nat)) = none := rfl
  simp only [fixHashes, hf _ hc, hf _ hm, hf _ hs, h0]

/-- C7 witness: a rom whose crc bytes are not hex text is stable under a
second application. -/
theorem fixHashes_idempotent_on_nonhex_witness :
    fixHashes (fixHashes { Crc := some [103] }) = fixHashes { Crc := some [103] } :=
  fixHashes_idempotent_on_nonhex { Crc := some [103] }
    (Or.inr ⟨[103], rfl, by decide⟩) (Or.inl rfl) (Or.inl rfl)

/-- C8: `lineCountingReader.Read` has a value receiver, so every
increment of `line` happens on a discarded copy, and the line number
`ParseXml` reports is 0 for every input — in particular for a failing
input whose reads delivered two newlines, where the intended count is 2.
-/
theorem parseXml_reports_line_zero :
    (∀ reads, parseXmlReportedLine reads = 0) ∧
    parseXmlReportedLine
      [([60, 97, 10], none), ([10, 98], none), ([], some "XML syntax error")] = 0 ∧
    newlinesDelivered
      [([60, 97, 10], none), ([10, 98], none), ([], some "XML syntax error")] = 2 := by
  have hfold : ∀ (l : List (List Nat × Option String)) (lr : LineCountingReader),
      l.foldl (fun lr rd => (lineCountingReadCall lr rd.1 rd.2).2) lr = lr := by
    intro l
    induction l with
    | nil => intro lr; rfl
    | cons hd tl ih => intro lr; simp [lineCountingReadCall, ih]
  exact ⟨fun reads => by rw [parseXmlReportedLine, hfold],
    by rw [parseXmlReportedLine, hfold], by decide⟩

/-- C9 counterexample: a read that delivers a byte together with the
end-of-stream error is not fed into the digest, so the digest input
differs from the bytes actually consumed. -/
theorem hashingReader_misses_eof_bytes :
    hashedBytes [([65, 66], none), ([67], some "EOF")] = [65, 66] ∧
    consumedBytes [([65, 66], none), ([67], some "EOF")] = [65, 66, 67] ∧
    hashedBytes [([65, 66], none), ([67], some "EOF")] ≠
      consumedBytes [([65, 66], none), ([67], some "EOF")] := by decide

/-- C9 amended: the digest is the hash of exactly the bytes delivered by
reads that returned a nil error — it depends only on that byte sequence,
not on chunking — and it equals all consumed bytes precisely when no
byte-delivering read carries an error alongside (bytes delivered together
with an error, end-of-stream included, are dropped). -/
theorem hashingReader_digest_error_free_reads
    (reads : List (List Nat × Option String)) :
    hashedBytes reads = consumedBytes (reads.filter (fun rd => rd.2 = none)) ∧
    ((∀ rd ∈ reads, rd.1 ≠ [] → rd.2 = none) →
      hashedBytes reads = consumedBytes reads) := by
  constructor
  · induction reads with
    | nil => rfl
    | cons hd tl ih =>
      by_cases h : hd.2 = none <;>
        simp [hashedBytes, consumedBytes, List.filter_cons, h, ih]
  · induction reads with
    | nil => intro _; rfl
    | cons hd tl ih =>
      intro hall
      have htl := ih fun rd hrd => hall rd (List.mem_cons_of_mem _ hrd)
      by_cases h2 : hd.2 = none
      · simp [hashedBytes, consumedBytes, h2, htl]
      · have h1 : hd.1 = [] := by
          by_contra hne
          exact h2 (hall hd (List.mem_cons_self _ _) hne)
        simp [hashedBytes, consumedBytes, h2, h1, htl]

/-- C9 witness: with a final zero-byte EOF read the digest covers all
consumed bytes. -/
theorem hashingReader_digest_error_free_reads_witness :
    hashedBytes [([1, 2], none), ([], some "EOF")] =
      consumedBytes [([1, 2], none), ([], some "EOF")] :=
  (hashingReader_digest_error_free_reads [([1, 2], none), ([], some "EOF")]).2 (by decide)

end Romba
